import Mathlib

/-!
Verification of the patent-enrichment pipeline (locator, XML extractor,
HTML extractor, merger) of the `uspto-bulk-download` repository.

The Python sources are shallowly embedded: strings are `String`/`List Char`,
regular-expression scans over them are explicit recursive scans with the
same matching semantics as the concrete patterns used by the source, the
XML element tree produced by the standard-library parser is modelled by an
inductive `Elem` (tag, attributes, text, tail, children, as in
`xml.etree.ElementTree`), and the outcome of the structural XML parse is an
`Except` value.  All definitions are executable.
-/

/-- Python `\s` whitespace class (ASCII part, as matched by `re` on these inputs). -/
def isWsPy (c : Char) : Bool :=
  c = ' ' || c = '\t' || c = '\n' || c = '\x0d' || c = '\x0c' || c = '\x0b'

/-- ASCII decimal digit, Python `\d` / `str.isdigit` on ASCII data
(code points 48-57). -/
def isDig (c : Char) : Bool := 48 ≤ c.toNat && c.toNat ≤ 57

/-- Python character class `[A-Z]` (code points 65-90). -/
def isUpperAZ (c : Char) : Bool := 65 ≤ c.toNat && c.toNat ≤ 90

/-- Does `cs` start with the literal `lit`? -/
def litAt : List Char → List Char → Bool
  | [], _ => true
  | _ :: _, [] => false
  | l :: ls, c :: cs => l = c && litAt ls cs

/-- Drop a literal from the front of `cs`, if present. -/
def dropLit : List Char → List Char → Option (List Char)
  | [], cs => some cs
  | _ :: _, [] => none
  | l :: ls, c :: cs => if l = c then dropLit ls cs else none

/-- Numeric value of a digit string (used for Python `int` on `\d+` captures). -/
def digitsToNat (ds : List Char) : Nat :=
  ds.foldl (fun n c => n * 10 + (c.toNat - '0'.toNat)) 0

/-- Python `str.zfill(8)` on a digit string. -/
def zfill8 (ds : List Char) : List Char :=
  List.replicate (8 - ds.length) '0' ++ ds

/-- Python `str.strip()` (whitespace from both ends). -/
def pyStrip (s : String) : String :=
  ⟨((s.data.dropWhile isWsPy).reverse.dropWhile isWsPy).reverse⟩

/-- Lower-case a character list (for `re.IGNORECASE` comparisons). -/
def lowerCs (cs : List Char) : List Char := cs.map Char.toLower

/-!  ## Locator (`xml_parser.normalize_patent_number`, `xml_parser.find_patent_in_xml`) -/

/-- Python `re.match(r'US(\d+)[A-Z]\d*', s)`: anchored at the start of the string,
returns the first capture group (the maximal digit run after `US`, which must
be non-empty and be followed by an `[A-Z]` character).  Trailing characters
after the match are allowed, as with Python's `re.match`. -/
def reMatchUSNum (cs : List Char) : Option (List Char) :=
  match cs with
  | 'U' :: 'S' :: rest =>
    match rest.takeWhile isDig, rest.dropWhile isDig with
    | [], _ => none
    | _ :: _, [] => none
    | d :: ds, c :: _ => if isUpperAZ c then some (d :: ds) else none
  | _ => none

/-- Source `xml_parser.normalize_patent_number`: strip the `US` country prefix and
kind code and zero-pad the number to 8 digits; a string whose prefix does not
match the pattern is returned unchanged. -/
def normalize_patent_number (patent_num : String) : String :=
  match reMatchUSNum patent_num.data with
  | some num => ⟨zfill8 num⟩
  | none => patent_num

/-- The scan performed by `re.search` for the pattern
`<us-patent-grant[^>]+file="US<number>`, after the opening literal has been
consumed: at least one non-`>` character, then the needle
`file="US<number>`. -/
def afterOpenTag (needle : List Char) : List Char → Bool
  | [] => false
  | c :: rest => c ≠ '>' && (litAt needle rest || afterOpenTag needle rest)

/-- The opening-tag literal of the locator's search pattern. -/
def openTagLit : List Char := "<us-patent-grant".data

/-- Does the locator's pattern match at the head of `cs`, for a given
normalized number? -/
def grantMatchAt (needle cs : List Char) : Bool :=
  litAt openTagLit cs &&
    afterOpenTag needle (cs.drop openTagLit.length)

/-- Index of the leftmost match of the locator's pattern (`re.search`). -/
def grantSearch (needle : List Char) : List Char → Option Nat
  | [] => none
  | cs@(_ :: rest) =>
    if grantMatchAt needle cs then some 0
    else (grantSearch needle rest).map (· + 1)

/-- Index just past the first occurrence of a literal (`re.search(lit).end()`). -/
def litSearchEnd (lit : List Char) : List Char → Option Nat
  | [] => none
  | cs@(_ :: rest) =>
    if litAt lit cs then some lit.length
    else (litSearchEnd lit rest).map (· + 1)

/-- The closing-tag literal searched for by the locator. -/
def closeTagLit : List Char := "</us-patent-grant>".data

/-- Locate a document block by its (already normalized) embedded file number:
the span from the leftmost opening-tag match up to the end of the next
`</us-patent-grant>` literal, or to end-of-text when no closing tag follows. -/
def locateByNumber (content : List Char) (num : List Char) : Option (List Char) :=
  let needle := "file=\"US".data ++ num
  match grantSearch needle content with
  | none => none
  | some start =>
    let rest := content.drop start
    match litSearchEnd closeTagLit rest with
    | some e => some (rest.take e)
    | none => some rest

/-- Source `xml_parser.find_patent_in_xml`: normalize the identifier, then search the
archive text for the pattern `<us-patent-grant[^>]+file="US<normalized>` and
return the span up to the matching close tag (or end of text), or `none` when
the pattern does not occur. -/
def find_patent_in_xml (content : List Char) (patent_number : String) : Option (List Char) :=
  locateByNumber content (normalize_patent_number patent_number).data

example : normalize_patent_number "US9391881B2" = "09391881" := by decide
example : normalize_patent_number "EP1234567" = "EP1234567" := by decide

/-!  ## XML element model (`xml.etree.ElementTree`)

An `Elem` carries a tag, an attribute list, the text before its first child
(`.text`), the text following it inside its parent (`.tail`), and its child
elements, exactly the data the extractor reads from the standard-library
element tree.  `parse_patent_xml` receives the outcome of the structural
parse of the DOCTYPE-stripped document as an `Except` value: `.error` models
`ET.ParseError` being raised by `ET.fromstring`, `.ok` the parsed root. -/

inductive Elem : Type where
  | mk (tag : String) (attrs : List (String × String)) (text : Option String)
      (tail : Option String) (children : List Elem)
deriving Repr

def Elem.tag : Elem → String
  | .mk t _ _ _ _ => t

def Elem.attrs : Elem → List (String × String)
  | .mk _ a _ _ _ => a

def Elem.text : Elem → Option String
  | .mk _ _ tx _ _ => tx

def Elem.tail : Elem → Option String
  | .mk _ _ _ tl _ => tl

def Elem.children : Elem → List Elem
  | .mk _ _ _ _ ch => ch

/-- Python `element.get(key, '')`: attribute lookup with default. -/
def Elem.attrGet (e : Elem) (key : String) : String :=
  match e.attrs.find? (fun p => p.1 = key) with
  | some p => p.2
  | none => ""

mutual
/-- Python `''.join(element.itertext())`: the element's own text followed by, for
each child in order, the child's `itertext` and then the child's tail. -/
def itertextE : Elem → String
  | .mk _ _ tx _ ch => tx.getD "" ++ itertextL ch

def itertextL : List Elem → String
  | [] => ""
  | c :: cs => itertextE c ++ c.tail.getD "" ++ itertextL cs
end

mutual
/-- All elements of a subtree in document (preorder) order, self included. -/
def subtreeE : Elem → List Elem
  | .mk t a tx tl ch => .mk t a tx tl ch :: subtreeL ch

def subtreeL : List Elem → List Elem
  | [] => []
  | c :: cs => subtreeE c ++ subtreeL cs
end

/-- All proper descendants of an element in document order (ElementPath `.//`). -/
def descendants (e : Elem) : List Elem := subtreeL e.children

/-- Children of `e` matching a relative tag path, in ElementPath order. -/
def childPath : List String → Elem → List Elem
  | [], e => [e]
  | t :: ts, e => (e.children.filter (fun c => c.tag = t)).flatMap (childPath ts)

/-- Python `root.findall('.//t/ts...')`: all matches in ElementPath order. -/
def findAllDesc (t : String) (ts : List String) (root : Elem) : List Elem :=
  ((descendants root).filter (fun e => e.tag = t)).flatMap (childPath ts)

/-- Python `root.find('.//t/ts...')`: the first match, if any. -/
def findDesc (t : String) (ts : List String) (root : Elem) : Option Elem :=
  (findAllDesc t ts root).head?

/-- Python `element.find('t')` for a direct child tag. -/
def childFind (t : String) (e : Elem) : Option Elem :=
  (e.children.filter (fun c => c.tag = t)).head?

/-!  ## XML extractor (`xml_parser.parse_patent_xml`) -/

/-- Claim type classification values produced by the extractor. -/
inductive ClaimType : Type where
  | system
  | method
  | medium
deriving DecidableEq, Repr

/-- One entry of `independent_claims`. -/
structure ClaimRec : Type where
  number : Nat
  type : ClaimType
  text : String
deriving DecidableEq, Repr

/-- The dictionary returned by `parse_patent_xml`. -/
structure PatentResult : Type where
  title : Option String
  abstract : Option String
  grant_date : Option String
  priority_date : Option String
  application_number : Option String
  assignee_original : Option String
  independent_claims : List ClaimRec
  application_family_members : List String
deriving DecidableEq, Repr

/-- The all-default result dictionary built at the top of `parse_patent_xml`. -/
def defaultPatentResult : PatentResult :=
  { title := none, abstract := none, grant_date := none, priority_date := none
    application_number := none, assignee_original := none
    independent_claims := [], application_family_members := [] }

/-- The `YYYYMMDD -> YYYY-MM-DD` reformatting applied to 8-character date texts. -/
def fmtDate (d : String) : String :=
  ⟨d.data.take 4⟩ ++ "-" ++ ⟨(d.data.drop 4).take 2⟩ ++ "-" ++ ⟨(d.data.drop 6).take 2⟩

/-- The date-field idiom `if d and len(d) == 8: formatted else absent`. -/
def dateOfElem (e : Option Elem) : Option String :=
  match e with
  | none => none
  | some el =>
    match el.text with
    | none => none
    | some d => if d ≠ "" ∧ d.length = 8 then some (fmtDate d) else none

/-- Python rendering of a possibly-`None` text inside an f-string. -/
def fstr (o : Option String) : String := o.getD "None"

/-- One `related-publication/document-id` rendered as
`country.text + doc-number.text (+ kind.text)`, kept only when both a
`country` and a `doc-number` child exist. -/
def famMember (d : Elem) : Option String :=
  match childFind "country" d, childFind "doc-number" d with
  | some c, some n =>
    let base := fstr c.text ++ fstr n.text
    some (match childFind "kind" d with
          | some k => base ++ fstr k.text
          | none => base)
  | _, _ => none

/-- Scan for `re.search(r'of claim \d+|according to claim \d+', s, re.IGNORECASE)`:
does the lower-cased text contain `of claim ` or `according to claim `
followed by a digit anywhere? -/
def depPhraseAt (cs : List Char) : Bool :=
  (match dropLit "of claim ".data cs with
   | some ('0' :: _) | some ('1' :: _) | some ('2' :: _) | some ('3' :: _)
   | some ('4' :: _) | some ('5' :: _) | some ('6' :: _) | some ('7' :: _)
   | some ('8' :: _) | some ('9' :: _) => true
   | _ => false) ||
  (match dropLit "according to claim ".data cs with
   | some (d :: _) => isDig d
   | _ => false)

def containsDepPhrase' : List Char → Bool
  | [] => false
  | c :: rest => depPhraseAt (c :: rest) || containsDepPhrase' rest

/-- The dependent-claim text test of the extractor. -/
def containsDepPhrase (s : String) : Bool := containsDepPhrase' (lowerCs s.data)

/-- Common prefix `\d+\.\s*` of the claim-type patterns (under `re.match`):
a non-empty digit run, a literal dot, then any whitespace.  Returns the
remaining (already lower-cased) text. -/
def afterNumDot (cs : List Char) : Option (List Char) :=
  match cs.takeWhile isDig, cs.dropWhile isDig with
  | [], _ => none
  | _ :: _, '.' :: rest => some (rest.dropWhile isWsPy)
  | _ :: _, _ => none

/-- Pattern `.{0,20}` followed by `medium|storage`: try every gap length up to the
fuel bound, where a gap character may be anything but a newline. -/
def gapThenMediumStorage : Nat → List Char → Bool
  | 0, cs => litAt "medium".data cs || litAt "storage".data cs
  | k + 1, cs =>
    litAt "medium".data cs || litAt "storage".data cs ||
      (match cs with
       | [] => false
       | c :: rest => c ≠ '\n' && gapThenMediumStorage k rest)

/-- Python `re.match(r'\d+\.\s*(A |An )?(non-transitory )?computer.{0,20}(medium|storage)', t, re.I)`. -/
def matchMedium (cs : List Char) : Bool :=
  match afterNumDot cs with
  | none => false
  | some r =>
    ["", "a ", "an "].any (fun art =>
      match dropLit art.data r with
      | none => false
      | some r1 =>
        ["", "non-transitory "].any (fun nt =>
          match dropLit nt.data r1 with
          | none => false
          | some r2 =>
            match dropLit "computer".data r2 with
            | none => false
            | some r3 => gapThenMediumStorage 20 r3))

/-- Python `re.match(r'\d+\.\s*A (k1|k2|..)', t, re.I)` for a keyword list. -/
def matchArticleKw (kws : List String) (cs : List Char) : Bool :=
  match afterNumDot cs with
  | none => false
  | some r =>
    match dropLit "a ".data r with
    | none => false
    | some r1 => kws.any (fun k => litAt k.data r1)

/-- The ordered claim-type classification of the extractor, applied to the
flattened claim text. -/
def classifyClaim (t : String) : ClaimType :=
  let ld := lowerCs t.data
  if matchArticleKw ["system", "apparatus", "device"] ld then .system
  else if matchArticleKw ["method", "process"] ld then .method
  else if matchMedium ld then .medium
  else .method

/-- Python `int(num_attr)` when `num_attr.isdigit()`, else `0`. -/
def claimNumOf (s : String) : Nat :=
  if s ≠ "" ∧ s.data.all isDig then digitsToNat s.data else 0

/-- The body of the claim loop of `parse_patent_xml`: `none` for a claim that
is skipped (no direct `claim-text` child, a `claim-ref` inside the first such
child, or a dependency phrase in its flattened text), otherwise the record
appended to `independent_claims`. -/
def claimToIndep (c : Elem) : Option ClaimRec :=
  match (c.children.filter (fun x => x.tag = "claim-text")).head? with
  | none => none
  | some first_text =>
    if ((descendants first_text).filter (fun x => x.tag = "claim-ref")).head?.isSome then
      none
    else
      if containsDepPhrase (pyStrip (itertextE first_text)) then none
      else
        some { number := claimNumOf (c.attrGet "num")
               type := classifyClaim (pyStrip (itertextE first_text))
               text := pyStrip (itertextE first_text) }

/-- The claim elements iterated by `root.findall('.//claim')`. -/
def claimElems (root : Elem) : List Elem :=
  (descendants root).filter (fun e => e.tag = "claim")

/-- Source `xml_parser.parse_patent_xml`.  The argument is the outcome of
`ET.fromstring` on the DOCTYPE-stripped document text: `.error` models the
`ET.ParseError` case, in which the function catches the exception and returns
the defaults; `.ok root` the successfully parsed document root. -/
def parse_patent_xml (x : Except Unit Elem) : PatentResult :=
  match x with
  | .error _ => defaultPatentResult
  | .ok root =>
    let title := match findDesc "invention-title" [] root with
      | some e => e.text
      | none => none
    let abstract := match findDesc "abstract" ["p"] root with
      | some e => some (pyStrip (itertextE e))
      | none => none
    let grant_date := dateOfElem (findDesc "publication-reference" ["document-id", "date"] root)
    let application_number := match findDesc "application-reference" ["document-id", "doc-number"] root with
      | some e =>
        match e.text with
        | some num => if num ≠ "" ∧ num.length ≥ 8
            then some (⟨num.data.take 2⟩ ++ "/" ++ ⟨num.data.drop 2⟩)
            else some num
        | none => none
      | none => none
    let filing_date := dateOfElem (findDesc "application-reference" ["document-id", "date"] root)
    let priority_date := match findDesc "us-provisional-application" ["document-id", "date"] root with
      | some e => dateOfElem (some e)
      | none => filing_date
    let assignee_original := match findDesc "assignees" ["assignee", "addressbook", "orgname"] root with
      | some e => e.text
      | none =>
        match findDesc "assignees" ["assignee", "addressbook", "last-name"] root,
              findDesc "assignees" ["assignee", "addressbook", "first-name"] root with
        | some ln, some fn => some (fstr fn.text ++ " " ++ fstr ln.text)
        | _, _ => none
    let family_members := (findAllDesc "related-publication" ["document-id"] root).filterMap famMember
    let indep := (claimElems root).filterMap claimToIndep
    { title := title, abstract := abstract, grant_date := grant_date
      priority_date := priority_date, application_number := application_number
      assignee_original := assignee_original, independent_claims := indep
      application_family_members := family_members }

/-!  ## HTML extractor (`google_patents.parse_google_patents_html`)

The two fields the claims concern — `forward_cites` and
`simple_family_members` — are embedded below exactly as computed by the
source.  Every field of the result dictionary is computed independently of
the others, so the remaining fields (expiration, current assignee, top
citing assignees) do not influence these two. -/

/-- Dropping a literal consumes exactly the literal's length. -/
theorem dropLit_some_length {lit cs r : List Char} (h : dropLit lit cs = some r) :
    cs.length = lit.length + r.length := by
  induction lit generalizing cs with
  | nil =>
    simp only [dropLit, Option.some.injEq] at h
    simp [← h]
  | cons l ls ih =>
    cases cs with
    | nil => simp [dropLit] at h
    | cons c cs' =>
      simp only [dropLit] at h
      split at h
      · have := ih h
        simp [this]
        omega
      · exact absurd h (by simp)

/-- One match of `re.findall(r'<h2>Cited By \((\d+)\)</h2>', html)` at the
head of the text: the opening literal, a non-empty maximal digit run (the
capture), then the closing literal.  Returns the captured count and the text
after the match (`re.findall` resumes scanning there). -/
def citedByAt (cs : List Char) : Option (Nat × List Char) :=
  match dropLit "<h2>Cited By (".data cs with
  | none => none
  | some r =>
    match r.takeWhile isDig with
    | [] => none
    | d :: ds =>
      match dropLit ")</h2>".data (r.dropWhile isDig) with
      | none => none
      | some rest => some (digitsToNat (d :: ds), rest)

theorem citedByAt_length {cs : List Char} {n : Nat} {after : List Char}
    (h : citedByAt cs = some (n, after)) : after.length < cs.length := by
  unfold citedByAt at h
  split at h
  · exact absurd h (by simp)
  · rename_i r h1
    have hr := dropLit_some_length h1
    split at h
    · exact absurd h (by simp)
    · split at h
      · exact absurd h (by simp)
      · rename_i rest h3
        have h4 := dropLit_some_length h3
        have h5 : (r.dropWhile isDig).length ≤ r.length :=
          List.Sublist.length_le (List.dropWhile_sublist _)
        simp only [Option.some.injEq, Prod.mk.injEq] at h
        have : after = rest := h.2.symm
        subst this
        simp at hr h4
        omega

/-- The scan of `re.findall(r'<h2>Cited By \((\d+)\)</h2>', html)`, with a
step-count bound as the structural measure: leftmost non-overlapping
matches, scanning resuming after each match.  `citedByAt_length` shows each
step consumes at least one character, so the bound used by `citedByCounts`
below never runs out; `citedByCounts_cons` proves the intended recurrence. -/
def citedByF : Nat → List Char → List Nat
  | _, [] => []
  | 0, _ :: _ => []
  | f + 1, c :: rest =>
    match citedByAt (c :: rest) with
    | some (n, after) => n :: citedByF f after
    | none => citedByF f rest

/-- Python `re.findall(r'<h2>Cited By \((\d+)\)</h2>', html)` converted to counts. -/
def citedByCounts (cs : List Char) : List Nat := citedByF cs.length cs

/-- The step bound of `citedByF` is irrelevant once it covers the text
length. -/
theorem citedByF_fuel : ∀ (f1 f2 : Nat) (cs : List Char),
    cs.length ≤ f1 → cs.length ≤ f2 → citedByF f1 cs = citedByF f2 cs := by
  intro f1
  induction f1 with
  | zero =>
    intro f2 cs h1 _
    have : cs = [] := List.length_eq_zero.mp (Nat.le_zero.mp h1)
    subst this
    cases f2 <;> rfl
  | succ f ih =>
    intro f2 cs h1 h2
    cases cs with
    | nil => cases f2 <;> rfl
    | cons c rest =>
      cases f2 with
      | zero => exact absurd h2 (by simp)
      | succ f2' =>
        simp only [citedByF]
        cases hm : citedByAt (c :: rest) with
        | some p =>
          obtain ⟨n, after⟩ := p
          have hlt := citedByAt_length hm
          simp only [List.length_cons] at hlt h1 h2
          exact congrArg (n :: ·) (ih f2' after (by omega) (by omega))
        | none =>
          simp only [List.length_cons] at h1 h2
          exact ih f2' rest (by omega) (by omega)

/-- The function `citedByCounts` satisfies the scanning recurrence of `re.findall`. -/
theorem citedByCounts_cons (c : Char) (rest : List Char) :
    citedByCounts (c :: rest) =
      match citedByAt (c :: rest) with
      | some (n, after) => n :: citedByCounts after
      | none => citedByCounts rest := by
  show citedByF (c :: rest).length (c :: rest) = _
  simp only [List.length_cons, citedByF]
  cases hm : citedByAt (c :: rest) with
  | some p =>
    obtain ⟨n, after⟩ := p
    have hlt := citedByAt_length hm
    simp only [List.length_cons] at hlt
    exact congrArg (n :: ·) (citedByF_fuel rest.length after.length after (by omega) le_rfl)
  | none => exact citedByF_fuel rest.length rest.length rest le_rfl le_rfl

/-- Python `re.search(r'Families Citing this family \((\d+)\)', html)` matched at
the head of the text: the opening literal, a non-empty maximal digit run,
then `)`. -/
def familiesCitingAt (cs : List Char) : Option Nat :=
  match dropLit "Families Citing this family (".data cs with
  | none => none
  | some r =>
    match r.takeWhile isDig with
    | [] => none
    | d :: ds =>
      match r.dropWhile isDig with
      | ')' :: _ => some (digitsToNat (d :: ds))
      | _ => none

/-- Python `re.search`: the capture of the leftmost match, if any. -/
def familiesCitingCount : List Char → Option Nat
  | [] => none
  | c :: rest =>
    match familiesCitingAt (c :: rest) with
    | some n => some n
    | none => familiesCitingCount rest

/-- Section 1 of `parse_google_patents_html`: sum of all `Cited By (N)`
counts plus, when present, the single `Families Citing this family (N)`
count. -/
def forwardCitesOf (html : List Char) : Nat :=
  (citedByCounts html).sum +
    match familiesCitingCount html with
    | some n => n
    | none => 0

/-- One match of `re.findall(r'>(US\d{7,}[AB]\d?)<', text)` at the head:
`>`, `US`, a maximal digit run of length at least 7, a kind letter `A` or
`B`, an optional digit, then `<`.  Returns the capture (the identifier
without the angle brackets) and the text after the full match. -/
def usPubAt (cs : List Char) : Option (String × List Char) :=
  match cs with
  | '>' :: 'U' :: 'S' :: r =>
    let ds := r.takeWhile isDig
    if ds.length < 7 then none
    else
      match r.dropWhile isDig with
      | [] => none
      | k :: rest =>
        if k = 'A' ∨ k = 'B' then
          match rest with
          | [] => none
          | c1 :: rest2 =>
            if c1 = '<' then some (⟨'U' :: 'S' :: ds ++ [k]⟩, rest2)
            else if isDig c1 then
              match rest2 with
              | [] => none
              | c2 :: tl =>
                if c2 = '<' then some (⟨'U' :: 'S' :: ds ++ [k, c1]⟩, tl)
                else none
            else none
        else none
  | _ => none

theorem usPubAt_length {cs : List Char} {s : String} {after : List Char}
    (h : usPubAt cs = some (s, after)) : after.length < cs.length := by
  unfold usPubAt at h
  split at h
  · rename_i r
    simp only at h
    split at h
    · exact absurd h (by simp)
    · split at h
      · exact absurd h (by simp)
      · rename_i k rest h2
        have h6 : rest.length < r.length := by
          have := congrArg List.length h2
          have h5 : (List.dropWhile isDig r).length ≤ r.length :=
            List.Sublist.length_le (List.dropWhile_sublist _)
          simp at this
          omega
        split at h
        · split at h
          · exact absurd h (by simp)
          · rename_i c1 rest2
            split at h
            · simp only [Option.some.injEq, Prod.mk.injEq] at h
              have hae : after = rest2 := h.2.symm
              subst hae
              simp only [List.length_cons] at h6 ⊢
              omega
            · split at h
              · split at h
                · exact absurd h (by simp)
                · rename_i c2 tl
                  split at h
                  · simp only [Option.some.injEq, Prod.mk.injEq] at h
                    have hae : after = tl := h.2.symm
                    subst hae
                    simp only [List.length_cons] at h6 ⊢
                    omega
                  · exact absurd h (by simp)
              · exact absurd h (by simp)
        · exact absurd h (by simp)
  · exact absurd h (by simp)

/-- The scan of `re.findall(r'>(US\d{7,}[AB]\d?)<', text)`, with a
step-count bound as the structural measure; `usPubAt_length` shows each step
consumes at least one character, so the bound used by `usPubs` below never
runs out; `usPubs_cons` proves the intended recurrence. -/
def usPubsF : Nat → List Char → List String
  | _, [] => []
  | 0, _ :: _ => []
  | f + 1, c :: rest =>
    match usPubAt (c :: rest) with
    | some (s, after) => s :: usPubsF f after
    | none => usPubsF f rest

/-- Python `re.findall(r'>(US\d{7,}[AB]\d?)<', text)`: all non-overlapping matches
in order, scanning resuming after each match. -/
def usPubs (cs : List Char) : List String := usPubsF cs.length cs

/-- The step bound of `usPubsF` is irrelevant once it covers the text
length. -/
theorem usPubsF_fuel : ∀ (f1 f2 : Nat) (cs : List Char),
    cs.length ≤ f1 → cs.length ≤ f2 → usPubsF f1 cs = usPubsF f2 cs := by
  intro f1
  induction f1 with
  | zero =>
    intro f2 cs h1 _
    have : cs = [] := List.length_eq_zero.mp (Nat.le_zero.mp h1)
    subst this
    cases f2 <;> rfl
  | succ f ih =>
    intro f2 cs h1 h2
    cases cs with
    | nil => cases f2 <;> rfl
    | cons c rest =>
      cases f2 with
      | zero => exact absurd h2 (by simp)
      | succ f2' =>
        simp only [usPubsF]
        cases hm : usPubAt (c :: rest) with
        | some p =>
          obtain ⟨s, after⟩ := p
          have hlt := usPubAt_length hm
          simp only [List.length_cons] at hlt h1 h2
          exact congrArg (s :: ·) (ih f2' after (by omega) (by omega))
        | none =>
          simp only [List.length_cons] at h1 h2
          exact ih f2' rest (by omega) (by omega)

/-- The function `usPubs` satisfies the scanning recurrence of `re.findall`. -/
theorem usPubs_cons (c : Char) (rest : List Char) :
    usPubs (c :: rest) =
      match usPubAt (c :: rest) with
      | some (s, after) => s :: usPubs after
      | none => usPubs rest := by
  show usPubsF (c :: rest).length (c :: rest) = _
  simp only [List.length_cons, usPubsF]
  cases hm : usPubAt (c :: rest) with
  | some p =>
    obtain ⟨s, after⟩ := p
    have hlt := usPubAt_length hm
    simp only [List.length_cons] at hlt
    exact congrArg (s :: ·) (usPubsF_fuel rest.length after.length after (by omega) le_rfl)
  | none => exact usPubsF_fuel rest.length rest.length rest le_rfl le_rfl

/-- The non-greedy capture `(.*?)(?=<h2>|</section>)` (with `re.DOTALL`):
the prefix of the text up to the first position at which `<h2>` or
`</section>` starts; `none` when no such position exists. -/
def captureTo : List Char → Option (List Char)
  | [] => none
  | c :: rest =>
    if litAt "<h2>".data (c :: rest) || litAt "</section>".data (c :: rest) then some []
    else (captureTo rest).map (c :: ·)

/-- Header of the `Family Applications (N)` section:
`<h2>Family Applications \(\d+\)</h2>`.  Returns the text after the header
when it matches at the head. -/
def famAppsHeaderAt (cs : List Char) : Option (List Char) :=
  match dropLit "<h2>Family Applications (".data cs with
  | none => none
  | some r =>
    match r.takeWhile isDig with
    | [] => none
    | _ :: _ => dropLit ")</h2>".data (r.dropWhile isDig)

/-- Header of the `Also Published As` section (a pure literal). -/
def alsoPubHeaderAt (cs : List Char) : Option (List Char) :=
  dropLit "<h2>Also Published As</h2>".data cs

/-- Header of the `Priority Applications (N)` section. -/
def priorityAppsHeaderAt (cs : List Char) : Option (List Char) :=
  match dropLit "<h2>Priority Applications (".data cs with
  | none => none
  | some r =>
    match r.takeWhile isDig with
    | [] => none
    | _ :: _ => dropLit ")</h2>".data (r.dropWhile isDig)

/-- Python `re.search(header + r'(.*?)(?=<h2>|</section>)', html, re.DOTALL)`:
the captured group of the leftmost full match.  When the header matches at a
position but no terminator follows it, the search continues from the next
position, exactly as the backtracking engine does. -/
def sectionSearch (headerAt : List Char → Option (List Char)) : List Char → Option (List Char)
  | [] => none
  | c :: rest =>
    match headerAt (c :: rest) with
    | some afterHeader =>
      match captureTo afterHeader with
      | some cap => some cap
      | none => sectionSearch headerAt rest
    | none => sectionSearch headerAt rest

/-- Identifiers harvested from one optionally-present section. -/
def sectionPubs (headerAt : List Char → Option (List Char)) (html : List Char) : List String :=
  match sectionSearch headerAt html with
  | some cap => usPubs cap
  | none => []

/-- The identifiers found in the three family sections, in the order the
source inspects the sections (`set.update` order). -/
def allSectionPubs (html : List Char) : List String :=
  sectionPubs famAppsHeaderAt html ++ sectionPubs alsoPubHeaderAt html ++
    sectionPubs priorityAppsHeaderAt html

/-- Section 4 of `parse_google_patents_html`: the set union of the
identifiers of the three family sections, with the target identifier
discarded, returned as a sorted list (`sorted(list(family_pubs))`). -/
def simpleFamilyOf (html : List Char) (patent_number : String) : List String :=
  List.insertionSort (· ≤ ·)
    (((allSectionPubs html).dedup).filter (fun s => s ≠ patent_number))

/-- The result fields of `google_patents.parse_google_patents_html` that the
claims concern.  Each field of the source's result dictionary is computed
independently; the two below are embedded in full. -/
structure GoogleParse : Type where
  forward_cites : Nat
  simple_family_members : List String
deriving DecidableEq, Repr

/-- Source `google_patents.parse_google_patents_html` (the `forward_cites` and
`simple_family_members` fields). -/
def parse_google_patents_html (html : List Char) (patent_number : String) : GoogleParse :=
  { forward_cites := forwardCitesOf html
    simple_family_members := simpleFamilyOf html patent_number }

/-!  ## Merger (`enrich_patents.merge_patent_data`)

The Python function takes the two per-patent dictionaries (or falsy values
when a source is absent) and the identifier.  `Option` models the
present/absent (`if uspto_data:` / `if google_data:`) distinction; the
dictionary produced by the Google scraper is modelled with all five of its
fields. -/

/-- The enrichment dictionary handed to the merger (all five fields built by
the scraper). -/
structure GoogleData : Type where
  forward_cites : Nat
  top_citing_assignees : Option (List String)
  simple_family_members : List String
  expiration : Option String
  assignee_current : Option String
deriving DecidableEq, Repr

/-- The merged dictionary matching the target JSON schema. -/
structure MergedRecord : Type where
  number : String
  title : Option String
  grant_date : Option String
  priority_date : Option String
  expiration : Option String
  application_number : Option String
  assignee_original : Option String
  assignee_current : Option String
  forward_cites : Nat
  top_citing_assignees : Option (List String)
  abstract : Option String
  independent_claims : List ClaimRec
  application_family_members : List String
  simple_family_members : List String
deriving DecidableEq, Repr

/-- Source `enrich_patents.merge_patent_data`.  The initial `result` dictionary is
built with all defaults, the USPTO fields are copied when `uspto_data` is
truthy, the Google fields when `google_data` is truthy;
`assignee_current = google_data.get("assignee_current") or result["assignee_original"]`
uses Python truthiness, under which the empty string falls back. -/
def merge_patent_data (uspto_data : Option PatentResult)
    (google_data : Option GoogleData) (patent_number : String) : MergedRecord :=
  let result : MergedRecord :=
    { number := patent_number
      title := none
      grant_date := none
      priority_date := none
      expiration := none
      application_number := none
      assignee_original := none
      assignee_current := none
      forward_cites := 0
      top_citing_assignees := none
      abstract := none
      independent_claims := []
      application_family_members := []
      simple_family_members := [] }
  let result := match uspto_data with
    | some u =>
      { result with
        title := u.title
        grant_date := u.grant_date
        priority_date := u.priority_date
        application_number := u.application_number
        assignee_original := u.assignee_original
        abstract := u.abstract
        independent_claims := u.independent_claims
        application_family_members := u.application_family_members }
    | none => result
  match google_data with
  | some g =>
    { result with
      forward_cites := g.forward_cites
      top_citing_assignees := g.top_citing_assignees
      simple_family_members := g.simple_family_members
      expiration := g.expiration
      assignee_current :=
        match g.assignee_current with
        | some s => if s = "" then result.assignee_original else some s
        | none => result.assignee_original }
  | none => { result with assignee_current := result.assignee_original }

/-!  ## Spec-side definitions and concrete inputs

The definitions below named `...Spec` follow the specification's words, for
refinement comparison against the embedded source definitions; each is
clearly marked.  The concrete `Elem` trees and page strings are the inputs
at which counterexamples and witnesses are evaluated. -/

/-- Spec-modelled XML-extractor contract, for refinement comparison only
(the source is `parse_patent_xml` above): a structurally malformed document
(after DOCTYPE stripping) signals a `ParseError` to the caller; otherwise
extraction proceeds and missing fields yield absent values. -/
def xmlExtractSpec (x : Except Unit Elem) : Except Unit PatentResult :=
  match x with
  | .error e => .error e
  | .ok root => .ok (parse_patent_xml (.ok root))

/-- Spec-modelled `assignee_current` precedence, for refinement comparison
only: the Enrichment Record's current assignee if present and non-empty,
else the Primary Record's `assignee_original` if present, else null. -/
def assigneeCurrentSpec (u : Option PatentResult) (g : Option GoogleData) : Option String :=
  match g.bind (fun x => x.assignee_current) with
  | some s => if s ≠ "" then some s else u.bind (fun x => x.assignee_original)
  | none => u.bind (fun x => x.assignee_original)

/-- The claim's identifier shape, read as a full-string shape: `US`, one or
more digits, an uppercase letter, then optional digits up to the end of the
string. -/
def usFullShape (s : String) : Prop :=
  ∃ ds c os, s.data = 'U' :: 'S' :: (ds ++ c :: os) ∧ ds ≠ [] ∧
    ds.all isDig = true ∧ isUpperAZ c = true ∧ os.all isDig = true

/-- The shape actually tested by `re.match`: a *prefix* of the string of the
form `US`, one or more digits, then an uppercase letter (anything may
follow). -/
def usPrefixShape (s : String) : Prop :=
  ∃ ds c t, s.data = 'U' :: 'S' :: (ds ++ c :: t) ∧ ds ≠ [] ∧
    ds.all isDig = true ∧ isUpperAZ c = true

/-- An `[A-Z]` character is not a digit. -/
theorem isUpperAZ_not_isDig {c : Char} (h : isUpperAZ c = true) : isDig c = false := by
  simp only [isUpperAZ, Bool.and_eq_true, decide_eq_true_eq] at h
  by_contra hx
  rw [Bool.not_eq_false] at hx
  simp only [isDig, Bool.and_eq_true, decide_eq_true_eq] at hx
  omega

/-- The predicate `usPrefixShape` is exactly what `reMatchUSNum` tests. -/
theorem usPrefixShape_iff {s : String} :
    usPrefixShape s ↔ (reMatchUSNum s.data).isSome = true := by
  constructor
  · rintro ⟨ds, c, t, hdata, hne, hdig, hup⟩
    have htw : (ds ++ c :: t).takeWhile isDig = ds := by
      rw [List.takeWhile_append]
      simp only [List.all_eq_true] at hdig
      rw [List.takeWhile_eq_self_iff.mpr (fun a ha => hdig a ha)]
      simp [List.takeWhile, isUpperAZ_not_isDig hup]
    have hdw : (ds ++ c :: t).dropWhile isDig = c :: t := by
      rw [List.dropWhile_append]
      simp only [List.all_eq_true] at hdig
      rw [List.dropWhile_eq_nil_iff.mpr (fun a ha => hdig a ha)]
      simp [List.dropWhile, isUpperAZ_not_isDig hup]
    rw [hdata]
    cases ds with
    | nil => exact absurd rfl hne
    | cons d ds' =>
      simp only [reMatchUSNum]
      simp only [htw, hdw, hup, if_true]
      rfl
  · intro h
    unfold reMatchUSNum at h
    split at h
    · rename_i rest heqdata
      split at h
      · exact absurd h (by simp)
      · exact absurd h (by simp)
      · rename_i d ds' c t htw hdw
        split at h
        · rename_i hup
          refine ⟨d :: ds', c, t, ?_, by simp, ?_, hup⟩
          · have hjoin := List.takeWhile_append_dropWhile (p := isDig) (l := rest)
            rw [htw, hdw] at hjoin
            rw [heqdata, ← hjoin]
          · simp only [List.all_eq_true]
            intro a ha
            exact List.mem_takeWhile_imp (htw ▸ ha)
        · exact absurd h (by simp)
    · exact absurd h (by simp)

/-- The full shape implies the matched-prefix shape. -/
theorem usFullShape_imp_prefixShape {s : String} (h : usFullShape s) : usPrefixShape s := by
  obtain ⟨ds, c, os, hdata, hne, hdig, hup, _⟩ := h
  exact ⟨ds, c, os, hdata, hne, hdig, hup⟩

/-- Archive text holding a single document whose embedded file number is
`093918810` — a proper extension of the zero-padded number `09391881` of the
identifier `US9391881B2`, whose own document is absent from this archive. -/
def c1archive : String :=
  "<junk><us-patent-grant x file=\"US093918810-20240101.XML\"><a/></us-patent-grant>"

/-- The span of the other document inside `c1archive`. -/
def c1otherDoc : String :=
  "<us-patent-grant x file=\"US093918810-20240101.XML\"><a/></us-patent-grant>"

/-- Document with a provisional-application date element whose text is
malformed (not 8 characters) and a well-formed filing date. -/
def c3root : Elem :=
  .mk "us-patent-grant" [] none none [
    .mk "us-provisional-application" [] none none [
      .mk "document-id" [] none none [ .mk "date" [] (some "2016") none [] ] ],
    .mk "application-reference" [] none none [
      .mk "document-id" [] none none [ .mk "date" [] (some "20160712") none [] ] ] ]

/-- Document with one independent claim and one dependent claim. -/
def c4root : Elem :=
  .mk "us-patent-grant" [] none none [
    .mk "claims" [] none none [
      .mk "claim" [("num", "1")] none none [
        .mk "claim-text" [] (some "1. A widget, comprising: a gear.") none [] ],
      .mk "claim" [("num", "2")] none none [
        .mk "claim-text" [] (some "2. The widget of claim 1, wherein the gear is round.") none [] ] ] ]

/-- Document whose only claim begins with `1. An apparatus`. -/
def c5root : Elem :=
  .mk "us-patent-grant" [] none none [
    .mk "claims" [] none none [
      .mk "claim" [("num", "1")] none none [
        .mk "claim-text" []
          (some "1. An apparatus for sorting widgets, comprising: a sorter.") none [] ] ] ]

/-- Page with exactly two `Cited By (3)` sections and no `Families Citing`
section. -/
def c6page : String :=
  "<body><h2>Cited By (3)</h2><p>x</p><h2>Cited By (3)</h2><p>y</p></body>"

/-- Page whose family section contains the target identifier itself,
verbatim, alongside one other identifier. -/
def c7page : String :=
  "<section><h2>Family Applications (2)</h2><td>>US7654321A<</td><td>>US1234567B1<</td></section>"

/-- Primary record whose original assignee is `ACME` (all other fields
absent). -/
def c8primary : PatentResult :=
  { defaultPatentResult with assignee_original := some "ACME" }

/-- Enrichment record whose current assignee is the empty string. -/
def c8enrich : GoogleData :=
  { forward_cites := 0, top_citing_assignees := none, simple_family_members := []
    expiration := none, assignee_current := some "" }

/-!  ## Claim theorems -/

/-- C1 (code bug, evaluated at the failing input): the identifier
`US9391881B2` normalizes to `09391881`, its own document is absent from
`c1archive` (the only document there has embedded file number `093918810`),
yet `find_patent_in_xml` returns that other document's span instead of
`none`, because its search pattern matches the normalized number as a bare
prefix of the embedded filename. -/
theorem claimC1_prefix_false_match :
    normalize_patent_number "US9391881B2" = "09391881" ∧
    find_patent_in_xml c1archive.data "US9391881B2" = some c1otherDoc.data := by
  constructor
  · rfl
  · rfl

/-- C2 (counterexample): on a structurally invalid document (the parse of
the DOCTYPE-stripped text fails), `parse_patent_xml` does not signal the
`ParseError` to its caller — it catches it and returns the record of
default/absent values, diverging from the spec-modelled contract
`xmlExtractSpec`, which signals. -/
theorem claimC2_counterexample :
    parse_patent_xml (.error ()) = defaultPatentResult ∧
    xmlExtractSpec (.error ()) = .error () ∧
    Except.ok (parse_patent_xml (.error ())) ≠ xmlExtractSpec (.error ()) := by
  refine ⟨rfl, rfl, ?_⟩
  intro h
  exact Except.noConfusion h

/-- C2 (amended): for a structurally invalid document the extractor returns
the all-default record (no exception reaches the caller), and for a parsed
document individually missing fields yield absent values. -/
theorem claimC2_amended :
    (∀ e : Unit, parse_patent_xml (.error e) = defaultPatentResult) ∧
    (∀ root : Elem, findDesc "invention-title" [] root = none →
      (parse_patent_xml (.ok root)).title = none) ∧
    (∀ root : Elem, findDesc "abstract" ["p"] root = none →
      (parse_patent_xml (.ok root)).abstract = none) ∧
    (∀ root : Elem,
      findDesc "publication-reference" ["document-id", "date"] root = none →
      (parse_patent_xml (.ok root)).grant_date = none) := by
  refine ⟨fun e => rfl, fun root h => ?_, fun root h => ?_, fun root h => ?_⟩
  · simp only [parse_patent_xml, h]
  · simp only [parse_patent_xml, h]
  · simp only [parse_patent_xml, h, dateOfElem]

/-- C2 (witness for the amended theorem, at a childless root element). -/
theorem claimC2_amended_witness :
    parse_patent_xml (.error ()) = defaultPatentResult ∧
    (parse_patent_xml (.ok (.mk "us-patent-grant" [] none none []))).title = none :=
  ⟨claimC2_amended.1 (), claimC2_amended.2.1 (.mk "us-patent-grant" [] none none []) rfl⟩

/-- C3 (counterexample): `c3root` has a provisional-application date element
whose text `2016` is malformed and a well-formed filing date `20160712`, yet
`parse_patent_xml` leaves `priority_date` absent instead of falling back to
the filing date `2016-07-12` as the claim states. -/
theorem claimC3_counterexample :
    (findDesc "us-provisional-application" ["document-id", "date"] c3root).isSome = true ∧
    dateOfElem (findDesc "application-reference" ["document-id", "date"] c3root)
      = some "2016-07-12" ∧
    (parse_patent_xml (.ok c3root)).priority_date = none := by
  refine ⟨rfl, rfl, rfl⟩

/-- C3 (amended): the filing-date fallback applies only when no
provisional-application date element exists at all; when such an element is
present, `priority_date` is its date when well-formed and absent otherwise
(no fallback), and when it is absent, `priority_date` is the filing date
(absent when that is absent or malformed). -/
theorem claimC3_amended (root : Elem) :
    ((findDesc "us-provisional-application" ["document-id", "date"] root).isSome = true →
      (parse_patent_xml (.ok root)).priority_date =
        dateOfElem (findDesc "us-provisional-application" ["document-id", "date"] root)) ∧
    (findDesc "us-provisional-application" ["document-id", "date"] root = none →
      (parse_patent_xml (.ok root)).priority_date =
        dateOfElem (findDesc "application-reference" ["document-id", "date"] root)) := by
  constructor
  · intro h
    cases hp : findDesc "us-provisional-application" ["document-id", "date"] root with
    | none => rw [hp] at h; exact absurd h (by simp)
    | some e => simp only [parse_patent_xml, hp]
  · intro h
    simp only [parse_patent_xml, h]

/-- C3 (witness for the amended theorem, at `c3root`). -/
theorem claimC3_amended_witness :
    (parse_patent_xml (.ok c3root)).priority_date =
      dateOfElem (findDesc "us-provisional-application" ["document-id", "date"] c3root) :=
  (claimC3_amended c3root).1 rfl

/-- What a successful iteration of the claim loop guarantees about the
produced record. -/
theorem claimToIndep_spec {c : Elem} {rec : ClaimRec} (h : claimToIndep c = some rec) :
    ∃ ft, (c.children.filter (fun x => x.tag = "claim-text")).head? = some ft ∧
      ((descendants ft).filter (fun x => x.tag = "claim-ref")).head? = none ∧
      rec.text = pyStrip (itertextE ft) ∧
      containsDepPhrase rec.text = false := by
  unfold claimToIndep at h
  split at h
  · exact absurd h (by simp)
  · rename_i ft hft
    split at h
    · exact absurd h (by simp)
    · rename_i href
      split at h
      · exact absurd h (by simp)
      · rename_i hdep
        simp only [Option.some.injEq] at h
        refine ⟨ft, hft, ?_, ?_, ?_⟩
        · exact Option.not_isSome_iff_eq_none.mp href
        · rw [← h]
        · rw [← h]
          simpa using hdep

/-- Mapping a kept record to a projection refines a relaxed `filterMap`. -/
theorem filterMap_map_sublist {α β γ : Type} (f : α → Option β) (g : β → γ)
    (fh : α → Option γ) (hcomp : ∀ a b, f a = some b → fh a = some (g b)) :
    ∀ l : List α, ((l.filterMap f).map g).Sublist (l.filterMap fh)
  | [] => by simp
  | a :: l => by
    cases hfa : f a with
    | none =>
      cases hha : fh a with
      | none =>
        simp only [List.filterMap_cons, hfa, hha]
        exact filterMap_map_sublist f g fh hcomp l
      | some x =>
        simp only [List.filterMap_cons, hfa, hha]
        exact (filterMap_map_sublist f g fh hcomp l).cons x
    | some b =>
      have hc := hcomp a b hfa
      simp only [List.filterMap_cons, hfa, hc, List.map_cons]
      exact (filterMap_map_sublist f g fh hcomp l).cons₂ (g b)

/-- C4 (confirmed): every record in the `independent_claims` produced by
`parse_patent_xml` comes from a claim element whose first direct
`claim-text` child contains no `claim-ref` sub-element and whose flattened
text does not match the dependency-phrase pattern, and the surviving
records preserve document order (their texts form a sublist of the
flattened first-child texts of all claim elements in document order). -/
theorem claimC4_independent_claims (root : Elem) :
    (∀ rec ∈ (parse_patent_xml (.ok root)).independent_claims,
      ∃ c ∈ claimElems root,
        ∃ ft, (c.children.filter (fun x => x.tag = "claim-text")).head? = some ft ∧
          ((descendants ft).filter (fun x => x.tag = "claim-ref")).head? = none ∧
          rec.text = pyStrip (itertextE ft) ∧
          containsDepPhrase rec.text = false) ∧
    ((parse_patent_xml (.ok root)).independent_claims.map (fun r => r.text)).Sublist
      ((claimElems root).filterMap (fun c =>
        ((c.children.filter (fun x => x.tag = "claim-text")).head?).map
          (fun ft => pyStrip (itertextE ft)))) := by
  have hic : (parse_patent_xml (.ok root)).independent_claims
      = (claimElems root).filterMap claimToIndep := rfl
  constructor
  · intro rec hrec
    rw [hic, List.mem_filterMap] at hrec
    obtain ⟨c, hc, hfc⟩ := hrec
    obtain ⟨ft, h1, h2, h3, h4⟩ := claimToIndep_spec hfc
    exact ⟨c, hc, ft, h1, h2, h3, h4⟩
  · rw [hic]
    apply filterMap_map_sublist
    intro a b hb
    obtain ⟨ft, h1, h2, h3, h4⟩ := claimToIndep_spec hb
    rw [h1]
    simp [h3]

/-- The single record kept from `c4root` (claim 2 is dependent). -/
def c4rec : ClaimRec :=
  { number := 1, type := .method, text := "1. A widget, comprising: a gear." }

/-- C4 (witness at `c4root`, whose claim 1 is independent and claim 2
dependent). -/
theorem claimC4_independent_claims_witness :
    ∃ c ∈ claimElems c4root,
      ∃ ft, (c.children.filter (fun x => x.tag = "claim-text")).head? = some ft ∧
        ((descendants ft).filter (fun x => x.tag = "claim-ref")).head? = none ∧
        c4rec.text = pyStrip (itertextE ft) ∧
        containsDepPhrase c4rec.text = false :=
  (claimC4_independent_claims c4root).1 c4rec (by decide)

/-- A kept record's type is the classification of its flattened text. -/
theorem claimToIndep_type {c : Elem} {rec : ClaimRec} (h : claimToIndep c = some rec) :
    rec.type = classifyClaim rec.text := by
  unfold claimToIndep at h
  split at h
  · exact absurd h (by simp)
  · split at h
    · exact absurd h (by simp)
    · split at h
      · exact absurd h (by simp)
      · simp only [Option.some.injEq] at h
        rw [← h]

/-- The record kept from `c5root`. -/
def c5rec : ClaimRec :=
  { number := 1, type := .method
    text := "1. An apparatus for sorting widgets, comprising: a sorter." }

/-- C5 (counterexample): the only claim of `c5root` begins with
`1. An apparatus`, yet the extractor classifies it `method`, not `system`:
the `system|apparatus|device` pattern requires the literal article `A`
followed by a space, which `An` does not satisfy. -/
theorem claimC5_counterexample :
    (parse_patent_xml (.ok c5root)).independent_claims.map (fun r => r.text)
      = ["1. An apparatus for sorting widgets, comprising: a sorter."] ∧
    (parse_patent_xml (.ok c5root)).independent_claims.map (fun r => r.type)
      = [ClaimType.method] ∧
    [ClaimType.method] ≠ [ClaimType.system] :=
  ⟨rfl, rfl, by decide⟩

/-- C5 (amended): each kept claim's type is classified by matching its
leading phrase against the ordered patterns as implemented — `A` (with the
bare article only) followed by `system|apparatus|device` gives `system`,
`A method|process` gives `method`, the computer-medium pattern gives
`medium`, and anything else (in particular a claim beginning
`An apparatus`) defaults to `method`. -/
theorem claimC5_amended (root : Elem) :
    (∀ rec ∈ (parse_patent_xml (.ok root)).independent_claims,
      rec.type = classifyClaim rec.text) ∧
    classifyClaim "1. An apparatus for sorting widgets, comprising: a sorter."
      = ClaimType.method ∧
    classifyClaim "1. A device for sorting widgets." = ClaimType.system ∧
    classifyClaim "2. A method for sorting widgets." = ClaimType.method ∧
    classifyClaim "3. A non-transitory computer-readable storage medium storing instructions."
      = ClaimType.medium := by
  refine ⟨?_, rfl, rfl, rfl, rfl⟩
  intro rec hrec
  have hic : (parse_patent_xml (.ok root)).independent_claims
      = (claimElems root).filterMap claimToIndep := rfl
  rw [hic, List.mem_filterMap] at hrec
  obtain ⟨c, _, hfc⟩ := hrec
  exact claimToIndep_type hfc

/-- C5 (witness for the amended theorem, at `c5root`). -/
theorem claimC5_amended_witness : c5rec.type = classifyClaim c5rec.text :=
  (claimC5_amended c5root).1 c5rec (by decide)

/-- C6 (confirmed): `forward_cites` equals the sum of all `Cited By (N)`
section counts plus the `Families Citing this family (N)` count when that
section is present (0 otherwise); in particular the page `c6page`, which has
exactly two `Cited By (3)` sections and no `Families Citing` section,
yields 6. -/
theorem claimC6_forward_cites :
    (∀ (html : List Char) (patent_number : String),
      (parse_google_patents_html html patent_number).forward_cites
        = (citedByCounts html).sum + (familiesCitingCount html).getD 0) ∧
    citedByCounts c6page.data = [3, 3] ∧
    familiesCitingCount c6page.data = none ∧
    (parse_google_patents_html c6page.data "US1").forward_cites = 6 := by
  refine ⟨?_, by decide, by decide, by decide⟩
  intro html patent_number
  show forwardCitesOf html = _
  unfold forwardCitesOf
  cases familiesCitingCount html <;> rfl

/-- C7 (confirmed): `simple_family_members` never contains the target
identifier (even when it occurs verbatim inside a family section), is
strictly sorted (hence deduplicated), and contains exactly the
strict-shape identifiers harvested from the three family sections minus the
target; on `c7page`, whose family section lists the target itself, only the
other identifier survives. -/
theorem claimC7_simple_family :
    (∀ (html : List Char) (patent_number : String),
      patent_number ∉ (parse_google_patents_html html patent_number).simple_family_members) ∧
    (∀ (html : List Char) (patent_number : String),
      ((parse_google_patents_html html patent_number).simple_family_members).Pairwise (· < ·)) ∧
    (∀ (html : List Char) (patent_number : String) (s : String),
      s ∈ (parse_google_patents_html html patent_number).simple_family_members ↔
        (s ∈ allSectionPubs html ∧ s ≠ patent_number)) ∧
    (parse_google_patents_html c7page.data "US7654321A").simple_family_members
      = ["US1234567B1"] := by
  have hmem : ∀ (html : List Char) (patent_number : String) (s : String),
      s ∈ (parse_google_patents_html html patent_number).simple_family_members ↔
        (s ∈ allSectionPubs html ∧ s ≠ patent_number) := by
    intro html patent_number s
    show s ∈ List.insertionSort (· ≤ ·)
        (((allSectionPubs html).dedup).filter (fun x => x ≠ patent_number)) ↔ _
    rw [(List.perm_insertionSort _ _).mem_iff, List.mem_filter, List.mem_dedup]
    simp
  refine ⟨?_, ?_, hmem, by decide⟩
  · intro html patent_number hc
    exact ((hmem html patent_number patent_number).mp hc).2 rfl
  · intro html patent_number
    have hsorted : List.Sorted (· ≤ ·)
        (List.insertionSort (· ≤ ·)
          (((allSectionPubs html).dedup).filter (fun x => x ≠ patent_number))) :=
      List.sorted_insertionSort _ _
    have hnodup : (List.insertionSort (· ≤ ·)
        (((allSectionPubs html).dedup).filter (fun x => x ≠ patent_number))).Nodup :=
      (List.perm_insertionSort _ _).nodup_iff.mpr
        ((List.nodup_dedup (allSectionPubs html)).filter _)
    exact (hsorted.and hnodup).imp (fun h => lt_of_le_of_ne h.1 h.2)

/-- C8 (confirmed): the merged `assignee_current` follows the spec's
precedence — the enrichment record's current assignee when present and
non-empty, else the primary record's `assignee_original`, else null; in
particular an empty-string enrichment assignee falls back to `ACME`. -/
theorem claimC8_assignee_current :
    (∀ (uspto_data : Option PatentResult) (google_data : Option GoogleData)
        (patent_number : String),
      (merge_patent_data uspto_data google_data patent_number).assignee_current
        = assigneeCurrentSpec uspto_data google_data) ∧
    (merge_patent_data (some c8primary) (some c8enrich) "US0000001A1").assignee_current
      = some "ACME" := by
  refine ⟨?_, rfl⟩
  intro u g pn
  cases g with
  | none => cases u <;> rfl
  | some gd =>
    cases hga : gd.assignee_current with
    | none => cases u <;> simp [merge_patent_data, assigneeCurrentSpec, hga]
    | some s =>
      by_cases hs : s = "" <;>
        cases u <;> simp [merge_patent_data, assigneeCurrentSpec, hga, hs]

/-- C9 (confirmed): merging with both sources absent returns (totally, no
exception modelled or needed) the canonical record with the identifier set,
`forward_cites = 0`, empty list fields, and every scalar field null. -/
theorem claimC9_merge_absent (patent_number : String) :
    merge_patent_data none none patent_number =
      { number := patent_number
        title := none
        grant_date := none
        priority_date := none
        expiration := none
        application_number := none
        assignee_original := none
        assignee_current := none
        forward_cites := 0
        top_citing_assignees := none
        abstract := none
        independent_claims := []
        application_family_members := []
        simple_family_members := [] } := rfl

/-- Executable test of `usFullShape`. -/
def usFullShapeB (s : String) : Bool :=
  match s.data with
  | 'U' :: 'S' :: rest =>
    match rest.takeWhile isDig, rest.dropWhile isDig with
    | [], _ => false
    | _ :: _, [] => false
    | _ :: _, c :: os => isUpperAZ c && os.all isDig
  | _ => false

/-- The predicate `usFullShape` is decided by `usFullShapeB`. -/
theorem usFullShape_iff {s : String} : usFullShape s ↔ usFullShapeB s = true := by
  constructor
  · rintro ⟨ds, c, os, hdata, hne, hdig, hup, hos⟩
    have htw : (ds ++ c :: os).takeWhile isDig = ds := by
      rw [List.takeWhile_append]
      simp only [List.all_eq_true] at hdig
      rw [List.takeWhile_eq_self_iff.mpr (fun a ha => hdig a ha)]
      simp [List.takeWhile, isUpperAZ_not_isDig hup]
    have hdw : (ds ++ c :: os).dropWhile isDig = c :: os := by
      rw [List.dropWhile_append]
      simp only [List.all_eq_true] at hdig
      rw [List.dropWhile_eq_nil_iff.mpr (fun a ha => hdig a ha)]
      simp [List.dropWhile, isUpperAZ_not_isDig hup]
    unfold usFullShapeB
    rw [hdata]
    cases ds with
    | nil => exact absurd rfl hne
    | cons d ds' =>
      simp only [htw, hdw]
      simp [hup, hos]
  · intro h
    unfold usFullShapeB at h
    split at h
    · rename_i rest heqdata
      split at h
      · exact absurd h (by simp)
      · exact absurd h (by simp)
      · rename_i d ds' c os htw hdw
        simp only [Bool.and_eq_true] at h
        refine ⟨d :: ds', c, os, ?_, by simp, ?_, h.1, h.2⟩
        · have hjoin := List.takeWhile_append_dropWhile (p := isDig) (l := rest)
          rw [htw, hdw] at hjoin
          rw [heqdata, ← hjoin]
        · simp only [List.all_eq_true]
          intro a ha
          exact List.mem_takeWhile_imp (htw ▸ ha)
    · exact absurd h (by simp)

/-- C10 (counterexample): `US123B2X` does not match the claimed full shape
(`US`, digits, one uppercase letter, optional digits to the end), yet
`normalize_patent_number` does not return it unchanged — `re.match` accepts
a matching *prefix*, strips `US`/`B`, and zero-pads, yielding `00000123`. -/
theorem claimC10_counterexample :
    ¬ usFullShape "US123B2X" ∧
    normalize_patent_number "US123B2X" = "00000123" ∧
    "00000123" ≠ "US123B2X" := by
  refine ⟨?_, rfl, by decide⟩
  intro h
  exact absurd (usFullShape_iff.mp h) (by decide)

/-- C10 (amended): `re.match` anchors the shape at the start of the string
only; an identifier with no *prefix* of the form `US` + digits + uppercase
letter is returned unchanged by `normalize_patent_number`, and
`find_patent_in_xml` then searches with that raw string as the embedded file
number; a string with such a prefix is normalized even when trailing
characters keep it from matching the full shape. -/
theorem claimC10_amended (s : String) (content : List Char) (h : ¬ usPrefixShape s) :
    normalize_patent_number s = s ∧
    find_patent_in_xml content s = locateByNumber content s.data := by
  have hnone : reMatchUSNum s.data = none := by
    cases hm : reMatchUSNum s.data with
    | none => rfl
    | some ds => exact absurd (usPrefixShape_iff.mpr (by simp [hm])) h
  constructor
  · unfold normalize_patent_number
    rw [hnone]
  · unfold find_patent_in_xml normalize_patent_number
    rw [hnone]

/-- C10 (witness for the amended theorem, at the non-US identifier
`EP1234567` and the empty archive). -/
theorem claimC10_amended_witness :
    ¬ usPrefixShape "EP1234567" ∧
    (normalize_patent_number "EP1234567" = "EP1234567" ∧
      find_patent_in_xml [] "EP1234567" = locateByNumber [] "EP1234567".data) :=
  have hnp : ¬ usPrefixShape "EP1234567" :=
    fun h => absurd (usPrefixShape_iff.mp h) (by decide)
  ⟨hnp, claimC10_amended "EP1234567" [] hnp⟩
